import Mathlib

/-!
Verification of the config-spec translator (`git_configspec.py`).

The development shallowly embeds the core of the program:

* `ConfigSpecRule` and its `__lt__` comparison (`ruleLT`);
* the builtin `sorted` of Python applied to the rules, modelled as a stable insertion
  sort (`sortRules`) driven by `__lt__`: each element is inserted into the
  already-sorted prefix directly before the first element `y` for which
  `x < y` holds, which reproduces the stable sort of CPython on the lists
  considered here;
* the two regular expressions `_COMMENT` and `_CS_SCOPE_RULE`, hand-compiled
  into backtracking matchers over `List Char` with Python's alternation
  order, greedy (`.+`, `\s+`, `\S+`) and lazy (`.+?`) semantics;
* `parse_iterable`, returning the accumulated rules together with the
  warning diagnostics (line number and text) the code logs;
* a POSIX model `MPath` of `pathlib.Path` (absolute flag plus components,
  with `""` and `"."` segments dropped), with `/` (`MPath.join`),
  `.parent`, and `relative_to` (returning `none` where Python raises
  `ValueError`);
* `to_commands`, with the file-system existence check as an injectable
  predicate, returning `Except DeriveError _` where the code raises
  `FileNotFoundError` (missing directory) or lets `ValueError` escape;
* `apply` (`applyCmds`) over an injectable command runner, and the
  exit behaviour of the `__main__` driver (`mainRun`).
-/

namespace GitConfigspec

/-- The `\s` character class of Python, restricted to the ASCII whitespace
characters `[ \t\n\r\x0b\x0c]` (the inputs modelled here are ASCII). -/
def pyIsSpace (c : Char) : Bool :=
  c == ' ' || c == '\t' || c == '\n' || c == '\r' || c == '\x0b' || c == '\x0c'

/-- The `ConfigSpecRule` dataclass: scope keyword, pattern and selector. -/
structure ConfigSpecRule where
  scope : String
  pattern : String
  selector : String
deriving DecidableEq, Repr

/-- Model of `ConfigSpecRule.__lt__`: `len(self.pattern) < len(other.pattern) or
self.pattern == "*"`. -/
def ruleLT (a b : ConfigSpecRule) : Bool :=
  decide (a.pattern.length < b.pattern.length) || decide (a.pattern = "*")

/-- One step of the stable sort: insert `x` into an already-sorted list
directly before the first element `y` with `ruleLT x y`. -/
def insertRule (x : ConfigSpecRule) : List ConfigSpecRule → List ConfigSpecRule
  | [] => [x]
  | y :: ys => if ruleLT x y then x :: y :: ys else y :: insertRule x ys

/-- Model of `sorted(rules)`: the stable sort of Python under `ConfigSpecRule.__lt__`,
modelled as a left-to-right stable insertion sort. -/
def sortRules (l : List ConfigSpecRule) : List ConfigSpecRule :=
  l.foldl (fun acc x => insertRule x acc) []

/-! ## The `_COMMENT` regex

`_COMMENT = re.compile(r"(\s*|\#.*)$")`, used via `.match` (anchored at the
start of the line).  It succeeds exactly when the line is made of whitespace
only, or starts with `#` at position 0 and contains no newline other than a
single trailing one (`$` matches at the end of the string or just before a
final newline; `.` does not match a newline). -/

/-- Does the suffix after a leading `#` satisfy `.*$`: no newline, except
possibly a single trailing one. -/
def tailAfterHash (t : List Char) : Bool :=
  !t.contains '\n' || (t.getLast? == some '\n' && !t.dropLast.contains '\n')

/-- Truthiness of `_COMMENT.match(line)`. -/
def commentMatch (line : String) : Bool :=
  line.data.all pyIsSpace ||
    (match line.data with
     | c :: t => c == '#' && tailAfterHash t
     | [] => false)

/-! ## The `_CS_SCOPE_RULE` regex

```
(?P<scope>element)\s+
(?P<pattern>(?:\".+\"|.+?))\s+
(?P<selector>\S+)
([\t ]+(?P<optional>.*))?
```
compiled with `re.X` and used via `.match`.  The optional trailing group can
always match the empty string, so it never constrains the earlier groups;
after the pattern group, `\s+` and `\S+` are deterministic (a maximal
whitespace run followed by a maximal non-whitespace run, both non-empty),
because shrinking `\s+` can only put a whitespace character in front of
`\S`.  Backtracking therefore only happens inside the leading `\s+` and the
pattern alternation, which the matchers below explore in the order used by Python:
longer whitespace first, the quoted (greedy) alternative before the unquoted
(lazy) one, longer `.+` first, shorter `.+?` first. -/

/-- Match `\s+(?P<selector>\S+)` followed by the always-satisfiable optional
group: returns the selector. -/
def matchTail (cs : List Char) : Option String :=
  if (cs.dropWhile pyIsSpace).length = cs.length then none
  else if ((cs.dropWhile pyIsSpace).takeWhile (fun c => !pyIsSpace c)).isEmpty
    then none
  else some (String.mk ((cs.dropWhile pyIsSpace).takeWhile
    (fun c => !pyIsSpace c)))

/-- Greedy search for the closing quote of `\".+\"`: `acc` holds (reversed)
the characters consumed by `.+` so far; extending `.+` is tried before
closing the quote, so closing positions are explored right-to-left.  On
success returns the full pattern group (quotes included) and the selector. -/
def qgo (acc : List Char) : List Char → Option (String × String)
  | [] => none
  | c :: rest =>
    match (if c ≠ '\n' then qgo (c :: acc) rest else none) with
    | some r => some r
    | none =>
      if c == '"' && !acc.isEmpty then
        (matchTail rest).map (fun sel =>
          (String.mk ('"' :: (acc.reverse ++ ['"'])), sel))
      else none

/-- Lazy `.+?`: stopping (and matching the tail) is tried before consuming
one more character.  `acc` holds (reversed) the characters consumed so far,
at least one. -/
def lazyGo (acc : List Char) : List Char → Option (String × String)
  | [] => (matchTail []).map (fun sel => (String.mk acc.reverse, sel))
  | c :: rest =>
    match matchTail (c :: rest) with
    | some sel => some (String.mk acc.reverse, sel)
    | none => if c ≠ '\n' then lazyGo (c :: acc) rest else none

/-- The pattern alternation `(?:\".+\"|.+?)` followed by the tail: the
quoted alternative is tried first. -/
def altPattern (cs : List Char) : Option (String × String) :=
  match (match cs with
         | '"' :: rest => qgo [] rest
         | _ => none) with
  | some r => some r
  | none =>
    match cs with
    | c :: rest => if c ≠ '\n' then lazyGo [c] rest else none
    | [] => none

/-- The `\s*` part of the leading `\s+` (its first character has already
been checked): greedily consume whitespace, backtracking into shorter runs
if the remainder of the regex fails. -/
def wsThenPattern : List Char → Option (String × String)
  | [] => altPattern []
  | c :: rest =>
    if pyIsSpace c then
      match wsThenPattern rest with
      | some r => some r
      | none => altPattern (c :: rest)
    else altPattern (c :: rest)

/-- Truth and groups of `_CS_SCOPE_RULE.match(line)`: `some (pattern group,
selector group)` on a match (the scope group is always `"element"`). -/
def ruleMatch (line : String) : Option (String × String) :=
  match line.data with
  | 'e' :: 'l' :: 'e' :: 'm' :: 'e' :: 'n' :: 't' :: c :: rest =>
    if pyIsSpace c then wsThenPattern rest else none
  | _ => none

/-- Python's `str.strip('"')`: remove every leading and trailing `"`. -/
def stripQuotes (s : String) : String :=
  String.mk (((s.data.dropWhile (· == '"')).reverse.dropWhile
    (· == '"')).reverse)

/-- What `parse_iterable` does with one line. -/
inductive LineResult where
  | skip
  | rule (r : ConfigSpecRule)
  | warn
deriving DecidableEq, Repr

/-- The per-line behaviour of `parse_iterable`: empty lines are skipped by
`if line:`, `_COMMENT` matches are skipped, `_CS_SCOPE_RULE` matches build a
`ConfigSpecRule` (group `pattern` stripped of quotes), anything else is
logged as an `Expected rule` warning. -/
def classifyLine (line : String) : LineResult :=
  if line = "" then .skip
  else if commentMatch line then .skip
  else
    match ruleMatch line with
    | some ps => .rule ⟨"element", stripQuotes ps.1, ps.2⟩
    | none => .warn

/-- The fold inside `parse_iterable`, numbering lines from `n`; returns the
accumulated rules and the warning diagnostics (line number, line text). -/
def parseGo (n : Nat) : List String → List ConfigSpecRule × List (Nat × String)
  | [] => ([], [])
  | l :: ls =>
    match classifyLine l with
    | .skip => parseGo (n + 1) ls
    | .rule r => (r :: (parseGo (n + 1) ls).1, (parseGo (n + 1) ls).2)
    | .warn => ((parseGo (n + 1) ls).1, (n, l) :: (parseGo (n + 1) ls).2)

/-- Model of `parse_iterable`: lines are numbered from 1 (`enumerate(..., start=1)`). -/
def parse_iterable (lines : List String) :
    List ConfigSpecRule × List (Nat × String) :=
  parseGo 1 lines

/-! ## A POSIX model of `pathlib.Path`

A path is an absolute flag plus a list of components; parsing a string
splits on `/` and drops empty and `"."` segments, as `PurePosixPath` does
(so `Path("a//b/./c")` has the parts `a`, `b`, `c`; `".."` components are kept). -/

structure MPath where
  absolute : Bool
  comps : List String
deriving DecidableEq, Repr

/-- Model of `Path(".")` (also the default `relative_root` of `to_commands`). -/
def MPath.dot : MPath := ⟨false, []⟩

/-- Split a character list on `/`. -/
def splitCompsGo (cur : List Char) : List Char → List (List Char)
  | [] => [cur.reverse]
  | c :: rest =>
    if c = '/' then cur.reverse :: splitCompsGo [] rest
    else splitCompsGo (c :: cur) rest

/-- Model of `Path(s)`. -/
def MPath.ofString (s : String) : MPath :=
  ⟨s.data.head? == some '/',
   ((splitCompsGo [] s.data).map String.mk).filter
     (fun t => decide (t ≠ "" ∧ t ≠ "."))⟩

/-- The `/` operator on paths: an absolute right operand replaces the left
one. -/
def MPath.join (p q : MPath) : MPath :=
  if q.absolute then q else ⟨p.absolute, p.comps ++ q.comps⟩

/-- Model of `Path.parent`: drop the last component; the parent of `Path(".")` and of
`Path("/")` is the path itself. -/
def MPath.parent (p : MPath) : MPath :=
  if p.comps.isEmpty then p else ⟨p.absolute, p.comps.dropLast⟩

/-- Model of `Path.relative_to`: `p.relative_to(q)` succeeds when the anchors agree
and the components of `q` are a prefix of those of `p`, and returns the relative
remainder; otherwise Python raises `ValueError`, modelled as `none`. -/
def MPath.relative_to (p q : MPath) : Option MPath :=
  if p.absolute = q.absolute ∧ q.comps <+: p.comps then
    some ⟨false, p.comps.drop q.comps.length⟩
  else none

/-- The `PreparedCommand` dataclass. -/
structure PreparedCommand where
  gitdir : MPath
  selector : String
  pattern : MPath
deriving DecidableEq, Repr

/-- How a run of `to_commands` can fail: `FileNotFoundError("Non-existing
directory: {gitdir}")`, raised explicitly, or the `ValueError` escaping from
`pattern.relative_to(gitdir)`. -/
inductive DeriveError where
  | missingDirectory (dir : MPath)
  | valueError (pat target : MPath)
deriving DecidableEq, Repr

/-- The loop body of `to_commands` for one rule.  The file-system existence
check is the injectable predicate `ex`. -/
def deriveRule (ex : MPath → Bool) (root : MPath) (ignore : Bool)
    (r : ConfigSpecRule) : Except DeriveError PreparedCommand :=
  let pattern := MPath.ofString r.pattern
  let gitdir := (root.join pattern).parent
  if ignore || ex gitdir then
    match pattern.relative_to gitdir with
    | some rel => .ok ⟨gitdir, r.selector, rel⟩
    | none => .error (.valueError pattern gitdir)
  else .error (.missingDirectory gitdir)

/-- Model of `to_commands(spec, relative_root, ignore_nonexisting)`: derive the rules
in order, stopping at the first raised error. -/
def to_commands (ex : MPath → Bool) (spec : List ConfigSpecRule)
    (root : MPath) (ignore : Bool) : Except DeriveError (List PreparedCommand) :=
  match spec with
  | [] => .ok []
  | r :: rs =>
    match deriveRule ex root ignore r with
    | .error e => .error e
    | .ok c =>
      match to_commands ex rs root ignore with
      | .error e => .error e
      | .ok cs => .ok (c :: cs)

/-- The command `to_commands` produces for a rule when `relative_root` is
the default `Path(".")`: the git dir is the parent of the pattern and the
relative pattern is the last component of the pattern (or the empty/self path for
a component-less pattern). -/
def cmdOfDot (r : ConfigSpecRule) : PreparedCommand :=
  let p := MPath.ofString r.pattern
  ⟨p.parent, r.selector, ⟨false, p.comps.drop (p.comps.length - 1)⟩⟩

/-- Model of `apply(commands_to_apply, dry_run=False)` with the external runner `run`
(`True` = zero exit status): returns the commands actually passed to
`subprocess.run` and the one whose `CalledProcessError` aborted the loop,
if any. -/
def applyCmds (run : PreparedCommand → Bool) :
    List PreparedCommand → List PreparedCommand × Option PreparedCommand
  | [] => ([], none)
  | c :: cs =>
    if run c then
      let r := applyCmds run cs
      (c :: r.1, r.2)
    else ([c], some c)

/-- How a run of `__main__` can end. -/
inductive MainOutcome where
  | exitCode (code : Nat)
  | uncaughtException
deriving DecidableEq, Repr

def E_NO_CONFIG_SPEC : Nat := 1

def E_FILE_PATTERN_NONEXISTENT : Nat := 2

/-- The `__main__` driver: parse the spec file, sort, derive, then print or
apply.  `specFileExists` models `args.CONFIG_SPEC.exists()`; a missing file
exits with `E_NO_CONFIG_SPEC`; a `FileNotFoundError` from `to_commands`
exits with `E_FILE_PATTERN_NONEXISTENT`; a `ValueError` from `to_commands`
is caught nowhere and aborts the interpreter; otherwise the only
`sys.exit` calls are in the handlers, so it ends normally with status 0 —
also when `apply` raises `CalledProcessError`, which is caught and printed.
`dry_run` is `not args.apply`. -/
def mainRun (specFileExists : Bool) (lines : List String) (ex : MPath → Bool)
    (specParent : MPath) (ignoreNonexisting stdoutMode applyMode : Bool)
    (run : PreparedCommand → Bool) : MainOutcome :=
  if !specFileExists then .exitCode E_NO_CONFIG_SPEC
  else
    match to_commands ex (sortRules (parse_iterable lines).1) specParent
        ignoreNonexisting with
    | .error (.missingDirectory _) => .exitCode E_FILE_PATTERN_NONEXISTENT
    | .error (.valueError _ _) => .uncaughtException
    | .ok cmds =>
      if stdoutMode then .exitCode 0
      else if applyMode then
        match (applyCmds run cmds).2 with
        | some _ => .exitCode 0
        | none => .exitCode 0
      else .exitCode 0

/-- Between an earlier element `a` and a later element `b` of a sorted list:
a wildcard rule is never preceded by a rule with a non-empty, non-wildcard
pattern. -/
def starsBeforeRest (a b : ConfigSpecRule) : Prop :=
  ¬(b.pattern = "*" ∧ a.pattern ≠ "*" ∧ a.pattern ≠ "")

/-- Between an earlier element `a` and a later element `b` of a sorted list:
among non-wildcard rules, a longer pattern never precedes a shorter one. -/
def lenOrdOK (a b : ConfigSpecRule) : Prop :=
  ¬(a.pattern ≠ "*" ∧ b.pattern ≠ "*" ∧
    b.pattern.length < a.pattern.length)

/-- Rules with non-wildcard patterns of length `k + 1`. -/
def samePatLen (k : Nat) (r : ConfigSpecRule) : Bool :=
  decide (r.pattern ≠ "*" ∧ r.pattern.length = k + 1)

/-- The first non-whitespace character of a line, if any. -/
def firstNonSpace (s : String) : Option Char :=
  (s.data.dropWhile pyIsSpace).head?

/-! ## Proofs -/

theorem ruleLT_iff (a b : ConfigSpecRule) :
    ruleLT a b = true ↔
      (a.pattern.length < b.pattern.length ∨ a.pattern = "*") := by
  simp [ruleLT]

theorem mem_insertRule {w x : ConfigSpecRule} {l : List ConfigSpecRule}
    (h : w ∈ insertRule x l) : w = x ∨ w ∈ l := by
  induction l with
  | nil => simpa [insertRule] using h
  | cons y ys ih =>
    unfold insertRule at h
    by_cases hlt : ruleLT x y = true
    · rw [if_pos hlt] at h
      rcases List.mem_cons.mp h with h1 | h1
      · exact Or.inl h1
      · exact Or.inr h1
    · rw [if_neg hlt] at h
      rcases List.mem_cons.mp h with h1 | h1
      · exact Or.inr (List.mem_cons.mpr (Or.inl h1))
      · rcases ih h1 with h2 | h2
        · exact Or.inl h2
        · exact Or.inr (List.mem_cons.mpr (Or.inr h2))

theorem strlen_pos {s : String} (h : s ≠ "") : 0 < s.length := by
  cases s with
  | mk data =>
    cases data with
    | nil => exact absurd rfl h
    | cons c cs => exact Nat.succ_pos _

theorem pattern_ne_star_of_two_le {r : ConfigSpecRule}
    (h : 2 ≤ r.pattern.length) : r.pattern ≠ "*" := by
  intro heq
  rw [heq] at h
  exact absurd h (by decide)

theorem pattern_ne_nil_of_pos {r : ConfigSpecRule}
    (h : 0 < r.pattern.length) : r.pattern ≠ "" := by
  intro heq
  rw [heq] at h
  exact absurd h (by decide)

theorem pairwise_starsBeforeRest_insertRule {l : List ConfigSpecRule} (x)
    (h : l.Pairwise starsBeforeRest) :
    (insertRule x l).Pairwise starsBeforeRest := by
  induction l with
  | nil => simp [insertRule]
  | cons y ys ih =>
    rcases List.pairwise_cons.mp h with ⟨hy, hys⟩
    unfold insertRule
    by_cases hlt : ruleLT x y = true
    · rw [if_pos hlt]
      refine List.pairwise_cons.mpr ⟨?_, h⟩
      intro w hw
      rintro ⟨hwstar, hxstar, hxnil⟩
      rcases (ruleLT_iff x y).mp hlt with hlen | hstar
      · have hxpos : 0 < x.pattern.length := strlen_pos hxnil
        have hy2 : 2 ≤ y.pattern.length := by omega
        have hystar : y.pattern ≠ "*" := pattern_ne_star_of_two_le hy2
        have hynil : y.pattern ≠ "" := pattern_ne_nil_of_pos (by omega)
        rcases List.mem_cons.mp hw with rfl | hw'
        · exact hystar hwstar
        · exact hy w hw' ⟨hwstar, hystar, hynil⟩
      · exact hxstar hstar
    · rw [if_neg hlt]
      refine List.pairwise_cons.mpr ⟨?_, ih hys⟩
      intro w hw
      rcases mem_insertRule hw with rfl | hw'
      · rintro ⟨hwstar, _, _⟩
        exact hlt ((ruleLT_iff w y).mpr (Or.inr hwstar))
      · exact hy w hw'

theorem pairwise_lenOrdOK_insertRule {l : List ConfigSpecRule} (x)
    (h : l.Pairwise lenOrdOK) : (insertRule x l).Pairwise lenOrdOK := by
  induction l with
  | nil => simp [insertRule]
  | cons y ys ih =>
    rcases List.pairwise_cons.mp h with ⟨hy, hys⟩
    unfold insertRule
    by_cases hlt : ruleLT x y = true
    · rw [if_pos hlt]
      refine List.pairwise_cons.mpr ⟨?_, h⟩
      intro w hw
      rintro ⟨hxstar, hwstar, hlen⟩
      have hxy : x.pattern.length < y.pattern.length := by
        rcases (ruleLT_iff x y).mp hlt with h1 | h1
        · exact h1
        · exact absurd h1 hxstar
      rcases List.mem_cons.mp hw with rfl | hw'
      · omega
      · by_cases hystar : y.pattern = "*"
        · have : y.pattern.length = 1 := by rw [hystar]; decide
          omega
        · have := hy w hw'
          unfold lenOrdOK at this
          push_neg at this
          have := this hystar hwstar
          omega
    · rw [if_neg hlt]
      refine List.pairwise_cons.mpr ⟨?_, ih hys⟩
      intro w hw
      rcases mem_insertRule hw with rfl | hw'
      · rintro ⟨hystar, hwstar, hlen⟩
        exact hlt ((ruleLT_iff w y).mpr (Or.inl hlen))
      · exact hy w hw'

theorem filter_insertRule (k : Nat) (x : ConfigSpecRule)
    {l : List ConfigSpecRule} (h : l.Pairwise lenOrdOK) :
    (insertRule x l).filter (samePatLen k) =
      l.filter (samePatLen k) ++ (if samePatLen k x then [x] else []) := by
  induction l with
  | nil =>
    simp only [insertRule, List.filter, List.filter_nil, List.nil_append]
    cases hpk : samePatLen k x <;> simp [hpk]
  | cons y ys ih =>
    rcases List.pairwise_cons.mp h with ⟨hy, hys⟩
    unfold insertRule
    by_cases hlt : ruleLT x y = true
    · rw [if_pos hlt]
      by_cases hpk : samePatLen k x = true
      · have hxstar : x.pattern ≠ "*" := (of_decide_eq_true hpk).1
        have hxlen : x.pattern.length = k + 1 := (of_decide_eq_true hpk).2
        have hxy : x.pattern.length < y.pattern.length := by
          rcases (ruleLT_iff x y).mp hlt with h1 | h1
          · exact h1
          · exact absurd h1 hxstar
        have hnil : (y :: ys).filter (samePatLen k) = [] := by
          rw [List.filter_eq_nil_iff]
          intro a ha hpa
          have hastar : a.pattern ≠ "*" := (of_decide_eq_true hpa).1
          have halen : a.pattern.length = k + 1 := (of_decide_eq_true hpa).2
          rcases List.mem_cons.mp ha with rfl | ha'
          · omega
          · by_cases hystar : y.pattern = "*"
            · have : y.pattern.length = 1 := by rw [hystar]; decide
              omega
            · have := hy a ha'
              unfold lenOrdOK at this
              push_neg at this
              have := this hystar hastar
              omega
        rw [List.filter_cons_of_pos hpk, hnil, if_pos hpk]
        rfl
      · rw [List.filter_cons_of_neg (by simpa using hpk), if_neg hpk,
          List.append_nil]
    · rw [if_neg hlt]
      by_cases hpy : samePatLen k y = true
      · rw [List.filter_cons_of_pos hpy, List.filter_cons_of_pos hpy,
          ih hys, List.cons_append]
      · rw [List.filter_cons_of_neg (by simpa using hpy),
          List.filter_cons_of_neg (by simpa using hpy), ih hys]

theorem pairwise_sortGo {P : ConfigSpecRule → ConfigSpecRule → Prop}
    (hP : ∀ (x : ConfigSpecRule) {l : List ConfigSpecRule},
      l.Pairwise P → (insertRule x l).Pairwise P)
    (l : List ConfigSpecRule) :
    ∀ acc, acc.Pairwise P →
      (l.foldl (fun a x => insertRule x a) acc).Pairwise P := by
  induction l with
  | nil => intro acc h; exact h
  | cons x xs ih => intro acc h; exact ih _ (hP x h)

theorem filter_sortGo (k : Nat) (l : List ConfigSpecRule) :
    ∀ acc, acc.Pairwise lenOrdOK →
      (l.foldl (fun a x => insertRule x a) acc).filter (samePatLen k) =
        acc.filter (samePatLen k) ++ l.filter (samePatLen k) := by
  induction l with
  | nil => intro acc _; simp
  | cons x xs ih =>
    intro acc h
    show (xs.foldl _ (insertRule x acc)).filter _ = _
    rw [ih (insertRule x acc) (pairwise_lenOrdOK_insertRule x h),
      filter_insertRule k x h]
    cases hpk : samePatLen k x with
    | true => simp [List.filter_cons, hpk]
    | false => simp [List.filter_cons, hpk]

/-- Claim C1 (counterexample): sorting `[pattern "ab", pattern "*"]` puts
the wildcard rule first, not strictly after the non-wildcard rule, because
`__lt__` makes a wildcard rule compare less than everything. -/
theorem c1_counterexample :
    sortRules [⟨"element", "ab", "HEAD"⟩, ⟨"element", "*", "HEAD"⟩] =
      [⟨"element", "*", "HEAD"⟩, ⟨"element", "ab", "HEAD"⟩] ∧
    (⟨"element", "*", "HEAD"⟩ : ConfigSpecRule).pattern = "*" ∧
    (⟨"element", "ab", "HEAD"⟩ : ConfigSpecRule).pattern ≠ "*" := by decide

/-- Claim C1 (amended): for every list of parsed rules, the Precedence
Sorter places every rule whose pattern is exactly `"*"` strictly *before*
every rule whose pattern is non-empty and not `"*"`: in the sorted output no
wildcard rule is preceded by a rule with a non-empty non-wildcard pattern. -/
theorem c1_star_sorts_first (l : List ConfigSpecRule) :
    (sortRules l).Pairwise starsBeforeRest :=
  pairwise_sortGo (fun x {_} h => pairwise_starsBeforeRest_insertRule x h) l
    [] List.Pairwise.nil

/-- Claim C4 (counterexample): stability fails for rules with empty
patterns, which the parser can produce (`element "" sel`): with input
`[pattern "", pattern "*", pattern ""]` the two (distinct, equal-length,
non-wildcard) empty-pattern rules come out in reversed relative order,
because `"" < "*"` and `"*" < ""` both hold under `__lt__`. -/
theorem c4_counterexample :
    parse_iterable ["element \"\" s1", "element * HEAD", "element \"\" s3"] =
      ([⟨"element", "", "s1"⟩, ⟨"element", "*", "HEAD"⟩,
        ⟨"element", "", "s3"⟩], []) ∧
    sortRules [⟨"element", "", "s1"⟩, ⟨"element", "*", "HEAD"⟩,
        ⟨"element", "", "s3"⟩] =
      [⟨"element", "", "s3"⟩, ⟨"element", "*", "HEAD"⟩,
        ⟨"element", "", "s1"⟩] ∧
    (⟨"element", "", "s1"⟩ : ConfigSpecRule) ≠ ⟨"element", "", "s3"⟩ ∧
    (⟨"element", "", "s1"⟩ : ConfigSpecRule).pattern ≠ "*" ∧
    (⟨"element", "", "s3"⟩ : ConfigSpecRule).pattern ≠ "*" ∧
    (⟨"element", "", "s1"⟩ : ConfigSpecRule).pattern.length =
      (⟨"element", "", "s3"⟩ : ConfigSpecRule).pattern.length := by decide

/-- Claim C4 (amended): among non-wildcard rules a longer pattern never
precedes a strictly shorter one in the sorted output; rules with equal,
*positive* pattern length and non-wildcard patterns retain their original
relative order (the sort is stable for them — for the degenerate empty
pattern it is not); and in particular `lib/` sorts before
`lib/special.txt`. -/
theorem c4_shorter_first_and_stable :
    (∀ l : List ConfigSpecRule, (sortRules l).Pairwise lenOrdOK) ∧
    (∀ (l : List ConfigSpecRule) (k : Nat),
      (sortRules l).filter (samePatLen k) = l.filter (samePatLen k)) ∧
    sortRules [⟨"element", "lib/", "HEAD"⟩,
        ⟨"element", "lib/special.txt", "v2"⟩] =
      [⟨"element", "lib/", "HEAD"⟩, ⟨"element", "lib/special.txt", "v2"⟩] := by
  refine ⟨?_, ?_, by decide⟩
  · intro l
    exact pairwise_sortGo (fun x {_} h => pairwise_lenOrdOK_insertRule x h) l
      [] List.Pairwise.nil
  · intro l k
    simpa using filter_sortGo k l [] List.Pairwise.nil

/-! ## Parser facts -/

theorem matchTail_selector_ne_nil {cs : List Char} {s : String}
    (h : matchTail cs = some s) : s ≠ "" := by
  unfold matchTail at h
  split at h
  · exact absurd h (by simp)
  · split at h
    · exact absurd h (by simp)
    · rename_i hne
      rcases Option.some.inj h with rfl
      intro heq
      have hnil :
          ((cs.dropWhile pyIsSpace).takeWhile (fun c => !pyIsSpace c)) =
            ([] : List Char) := by
        have := congrArg String.data heq
        simpa using this
      rw [hnil] at hne
      exact hne rfl

theorem qgo_selector_ne_nil {cs : List Char} :
    ∀ {acc : List Char} {p s : String}, qgo acc cs = some (p, s) → s ≠ "" := by
  induction cs with
  | nil => intro acc p s h; exact absurd h (by simp [qgo])
  | cons c rest ih =>
    intro acc p s h
    unfold qgo at h
    split at h
    · rename_i r heq
      rcases Option.some.inj h with rfl
      by_cases hc : c ≠ '\n'
      · rw [if_pos hc] at heq; exact ih heq
      · rw [if_neg hc] at heq; exact absurd heq (by simp)
    · split at h
      · cases hmt : matchTail rest with
        | none => rw [hmt] at h; exact absurd h (by simp)
        | some sel =>
          rw [hmt] at h
          simp only [Option.map_some'] at h
          rcases Option.some.inj h with heq2
          have : sel = s := congrArg Prod.snd heq2
          subst this
          exact matchTail_selector_ne_nil hmt
      · exact absurd h (by simp)

theorem lazyGo_selector_ne_nil {cs : List Char} :
    ∀ {acc : List Char} {p s : String},
      lazyGo acc cs = some (p, s) → s ≠ "" := by
  induction cs with
  | nil =>
    intro acc p s h
    unfold lazyGo at h
    cases hmt : matchTail [] with
    | none => rw [hmt] at h; exact absurd h (by simp)
    | some sel =>
      rw [hmt] at h
      simp only [Option.map_some'] at h
      rcases Option.some.inj h with heq2
      have : sel = s := congrArg Prod.snd heq2
      subst this
      exact matchTail_selector_ne_nil hmt
  | cons c rest ih =>
    intro acc p s h
    unfold lazyGo at h
    split at h
    · rename_i sel hmt
      rcases Option.some.inj h with heq2
      have : sel = s := congrArg Prod.snd heq2
      subst this
      exact matchTail_selector_ne_nil hmt
    · by_cases hc : c ≠ '\n'
      · rw [if_pos hc] at h; exact ih h
      · rw [if_neg hc] at h; exact absurd h (by simp)

theorem altPattern_selector_ne_nil {cs : List Char} {p s : String}
    (h : altPattern cs = some (p, s)) : s ≠ "" := by
  unfold altPattern at h
  split at h
  · rename_i r heq
    rcases Option.some.inj h with rfl
    split at heq
    · exact qgo_selector_ne_nil heq
    · exact absurd heq (by simp)
  · split at h
    · split at h
      · exact lazyGo_selector_ne_nil h
      · exact absurd h (by simp)
    · exact absurd h (by simp)

theorem wsThenPattern_selector_ne_nil {cs : List Char} :
    ∀ {p s : String}, wsThenPattern cs = some (p, s) → s ≠ "" := by
  induction cs with
  | nil => intro p s h; exact altPattern_selector_ne_nil h
  | cons c rest ih =>
    intro p s h
    unfold wsThenPattern at h
    split at h
    · split at h
      · rename_i r heq
        rcases Option.some.inj h with rfl
        exact ih heq
      · exact altPattern_selector_ne_nil h
    · exact altPattern_selector_ne_nil h

theorem ruleMatch_selector_ne_nil {line : String} {p s : String}
    (h : ruleMatch line = some (p, s)) : s ≠ "" := by
  unfold ruleMatch at h
  split at h
  · split at h
    · exact wsThenPattern_selector_ne_nil h
    · exact absurd h (by simp)
  · exact absurd h (by simp)

theorem classifyLine_rule_selector_ne_nil {line : String}
    {r : ConfigSpecRule} (h : classifyLine line = .rule r) :
    r.selector ≠ "" := by
  unfold classifyLine at h
  split at h
  · exact absurd h (by simp)
  · split at h
    · exact absurd h (by simp)
    · split at h
      · rename_i ps heq
        rcases LineResult.rule.inj h with rfl
        rcases ps with ⟨pp, ss⟩
        exact ruleMatch_selector_ne_nil heq
      · exact absurd h (by simp)

theorem parseGo_selector_ne_nil {ls : List String} :
    ∀ {n : Nat} {r : ConfigSpecRule},
      r ∈ (parseGo n ls).1 → r.selector ≠ "" := by
  induction ls with
  | nil => intro n r h; exact absurd h (by simp [parseGo])
  | cons l rest ih =>
    intro n r h
    unfold parseGo at h
    split at h
    · exact ih h
    · rename_i r0 heq
      rcases List.mem_cons.mp h with rfl | h'
      · exact classifyLine_rule_selector_ne_nil heq
      · exact ih h'
    · exact ih h

/-- Claim C7 (counterexample): a comment line whose `#` is preceded by
whitespace produces no rule, but is *not* silent: `_COMMENT.match` is
anchored at the start of the line and `\s*$` cannot skip over the comment
text, so the line falls through to the rule regex and a warning diagnostic
is emitted. -/
theorem c7_counterexample :
    firstNonSpace " # a comment" = some '#' ∧
    parse_iterable [" # a comment"] = ([], [(1, " # a comment")]) := by
  decide

/-- Claim C7 (amended): blank/whitespace-only lines are skipped silently,
and so are comment lines whose `#` is the *first* character of the line
(with no interior newline); but a line whose first non-whitespace character
is `#` preceded by at least one whitespace character yields no rule and a
warning diagnostic. -/
theorem c7_comment_lines :
    (∀ line : String, line.data.all pyIsSpace = true →
      classifyLine line = .skip) ∧
    (∀ (line : String) (t : List Char), line.data = '#' :: t →
      tailAfterHash t = true → classifyLine line = .skip) ∧
    (∀ (line : String) (c : Char) (cs : List Char), line.data = c :: cs →
      pyIsSpace c = true →
      (line.data.dropWhile pyIsSpace).head? = some '#' →
      classifyLine line = .warn) := by
  refine ⟨?_, ?_, ?_⟩
  · intro line hall
    unfold classifyLine
    split
    · rfl
    · rw [if_pos (show commentMatch line = true by
        unfold commentMatch
        rw [hall, Bool.true_or])]
  · intro line t hdata htail
    have hne : line ≠ "" := by
      intro heq; subst heq; simp at hdata
    unfold classifyLine
    rw [if_neg hne]
    rw [if_pos (show commentMatch line = true by
      unfold commentMatch
      rw [hdata]
      simp [htail])]
  · intro line c cs hdata hsp hhash
    have hne : line ≠ "" := by
      intro heq; subst heq; simp at hdata
    have hnotall : line.data.all pyIsSpace = false := by
      rcases Bool.eq_false_or_eq_true (line.data.all pyIsSpace) with h | h
      · exfalso
        have : line.data.dropWhile pyIsSpace = [] := by
          rw [List.dropWhile_eq_nil_iff]
          intro x hx
          exact List.all_eq_true.mp h x hx
        rw [this] at hhash
        simp at hhash
      · exact h
    have hchash : c ≠ '#' := by
      intro heq; subst heq; exact absurd hsp (by decide)
    have hcm : commentMatch line = false := by
      unfold commentMatch
      rw [hnotall, hdata]
      simp [hchash]
    have hrm : ruleMatch line = none := by
      unfold ruleMatch
      split
      · rename_i heq
        rw [hdata] at heq
        have : c = 'e' := (List.cons.inj heq).1
        subst this
        exact absurd hsp (by decide)
      · rfl
    unfold classifyLine
    rw [if_neg hne, if_neg (by simp [hcm]), hrm]

/-- Claim C7 (amended) witness at concrete lines. -/
theorem c7_comment_lines_witness :
    classifyLine "  " = .skip ∧ classifyLine "# x" = .skip ∧
      classifyLine " # x" = .warn :=
  ⟨c7_comment_lines.1 "  " (by decide),
   c7_comment_lines.2.1 "# x" [' ', 'x'] (by decide) (by decide),
   c7_comment_lines.2.2 " # x" ' ' ['#', ' ', 'x'] (by decide) (by decide)
     (by decide)⟩

/-- Claim C8 (counterexample): the line `element "" A` matches the rule
regex with pattern group `""` (two characters, via the lazy unquoted
alternative), and `strip('"')` then leaves an *empty* pattern. -/
theorem c8_counterexample :
    parse_iterable ["element \"\" A"] = ([⟨"element", "", "A"⟩], []) ∧
    (⟨"element", "", "A"⟩ : ConfigSpecRule).pattern = "" := by decide

/-- Claim C8 (amended): every rule the parser produces has a non-empty
selector (the `\S+` group); the pattern, however, can be empty when the
matched pattern token consists only of double quotes, which
`strip('"')` removes entirely. -/
theorem c8_selector_nonempty :
    ∀ (lines : List String) (r : ConfigSpecRule),
      r ∈ (parse_iterable lines).1 → r.selector ≠ "" := by
  intro lines r h
  exact parseGo_selector_ne_nil h

/-- Claim C8 (amended) witness at a concrete parse. -/
theorem c8_selector_nonempty_witness :
    (⟨"element", "a", "HEAD"⟩ : ConfigSpecRule).selector ≠ "" :=
  c8_selector_nonempty ["element a HEAD"] ⟨"element", "a", "HEAD"⟩ (by decide)

/-- Claim C9 (confirmed): parsing `element "a/file with space.txt" A`
yields exactly one rule, with the quotes stripped from the pattern and
selector `A`. -/
theorem c9_quoted_pattern :
    parse_iterable ["element \"a/file with space.txt\" A"] =
      ([⟨"element", "a/file with space.txt", "A"⟩], []) := by decide

/-! ## Derivation facts -/

theorem MPath.dot_join (p : MPath) : MPath.dot.join p = p := by
  cases p with
  | mk a c =>
    unfold MPath.join MPath.dot
    cases a <;> simp

theorem MPath.relative_to_parent (p : MPath) :
    p.relative_to p.parent =
      some ⟨false, p.comps.drop (p.comps.length - 1)⟩ := by
  cases p with
  | mk a c =>
    cases c with
    | nil => simp [MPath.parent, MPath.relative_to]
    | cons x xs =>
      have hpre : (x :: xs).dropLast <+: (x :: xs) :=
        ⟨[(x :: xs).getLast (by simp)],
          List.dropLast_append_getLast (by simp)⟩
      have hparent : MPath.parent ⟨a, x :: xs⟩ = ⟨a, (x :: xs).dropLast⟩ := by
        unfold MPath.parent
        simp
      rw [hparent]
      unfold MPath.relative_to
      rw [if_pos ⟨rfl, hpre⟩, List.length_dropLast]

theorem deriveRule_dot (ex : MPath → Bool) (ignore : Bool)
    (r : ConfigSpecRule) :
    deriveRule ex MPath.dot ignore r =
      if ignore || ex (MPath.ofString r.pattern).parent then .ok (cmdOfDot r)
      else .error (.missingDirectory (MPath.ofString r.pattern).parent) := by
  simp only [deriveRule]
  rw [MPath.dot_join, MPath.relative_to_parent]
  by_cases h : (ignore || ex (MPath.ofString r.pattern).parent) = true
  · rw [if_pos h, if_pos h]
    rfl
  · rw [if_neg h, if_neg h]

theorem to_commands_dot_false (ex : MPath → Bool)
    (spec : List ConfigSpecRule) :
    to_commands ex spec MPath.dot false =
      match spec.find? (fun r => !ex (MPath.ofString r.pattern).parent) with
      | some r => .error (.missingDirectory (MPath.ofString r.pattern).parent)
      | none => .ok (spec.map cmdOfDot) := by
  induction spec with
  | nil => rfl
  | cons r rs ih =>
    unfold to_commands
    rw [deriveRule_dot, Bool.false_or, ih]
    by_cases hex : ex (MPath.ofString r.pattern).parent = true
    · rw [if_pos hex,
        List.find?_cons_of_neg _ (by simp [hex])]
      cases hfind :
          rs.find? (fun r => !ex (MPath.ofString r.pattern).parent) with
      | none => simp
      | some r' => simp
    · rw [if_neg hex,
        List.find?_cons_of_pos _
          (by simp [Bool.not_eq_true] at hex; simp [hex])]

theorem to_commands_dot_true (ex : MPath → Bool)
    (spec : List ConfigSpecRule) :
    to_commands ex spec MPath.dot true = .ok (spec.map cmdOfDot) := by
  induction spec with
  | nil => rfl
  | cons r rs ih =>
    unfold to_commands
    rw [deriveRule_dot, Bool.true_or, if_pos rfl, ih]
    rfl

/-- Claim C3 (counterexample): with a base directory other than `.` the
bypass flag does *not* guarantee success: for base `base` and relative
pattern `x`, the relative-pattern computation fails and derivation raises
`ValueError` even with `ignore_nonexisting` set, instead of producing a
command for the rule. -/
theorem c3_counterexample :
    to_commands (fun _ => true) [⟨"element", "x", "HEAD"⟩]
        ⟨false, ["base"]⟩ true =
      .error (.valueError (MPath.ofString "x") ⟨false, ["base"]⟩) := rfl

/-- Claim C3 (amended): with the default base directory `.`, derivation
fails if and only if existence-checking is enabled and the derived
working directory does not exist; it fails on the *first* such rule, with a
`MissingDirectory` error carrying that directory, and with the bypass flag
set it succeeds and produces one command per rule. -/
theorem c3_missing_directory (ex : MPath → Bool)
    (spec : List ConfigSpecRule) :
    (to_commands ex spec MPath.dot false =
      match spec.find? (fun r => !ex (MPath.ofString r.pattern).parent) with
      | some r => .error (.missingDirectory (MPath.ofString r.pattern).parent)
      | none => .ok (spec.map cmdOfDot)) ∧
    to_commands ex spec MPath.dot true = .ok (spec.map cmdOfDot) :=
  ⟨to_commands_dot_false ex spec, to_commands_dot_true ex spec⟩

/-- Claim C2 (counterexample): for the directory-like pattern `lib`
(relative base `.`, every directory existing, the resolved path not a
regular file), the derived working directory is `.` — the *parent* of the
pattern — and not the resolved path `lib` itself, and the
relative pattern is `lib`, not the empty/self path. -/
theorem c2_counterexample :
    to_commands (fun _ => true) [⟨"element", "lib", "HEAD"⟩] MPath.dot false =
      .ok [⟨MPath.dot, "HEAD", ⟨false, ["lib"]⟩⟩] ∧
    MPath.dot ≠ MPath.dot.join (MPath.ofString "lib") := by
  exact ⟨rfl, by decide⟩

/-- Claim C2 (amended): for a rule whose pattern is not `"*"` and whose
resolved path (base `.`) is not an existing regular file, the derived
working directory is the *parent* of the resolved path, and the
relative pattern is the last component of the pattern (the empty/self path only
when the pattern has no components).  The code never consults the
file-kind: `isFile` is an arbitrary file predicate constrained only by the
stated hypotheses. -/
theorem c2_directory_target (isFile ex : MPath → Bool) (r : ConfigSpecRule)
    (ignore : Bool)
    (hnotfile : isFile (MPath.dot.join (MPath.ofString r.pattern)) = false)
    (hstar : r.pattern ≠ "*")
    (hchk : ignore = true ∨ ex (MPath.ofString r.pattern).parent = true) :
    to_commands ex [r] MPath.dot ignore =
      .ok [⟨(MPath.dot.join (MPath.ofString r.pattern)).parent, r.selector,
        ⟨false, (MPath.ofString r.pattern).comps.drop
          ((MPath.ofString r.pattern).comps.length - 1)⟩⟩] := by
  unfold to_commands
  rw [deriveRule_dot]
  have hcond : (ignore || ex (MPath.ofString r.pattern).parent) = true := by
    rcases hchk with h | h <;> simp [h]
  rw [if_pos hcond, MPath.dot_join]
  rfl

/-- Claim C2 (amended) witness: pattern `lib`, everything existing, nothing
a regular file. -/
theorem c2_directory_target_witness :
    to_commands (fun _ => true) [⟨"element", "lib", "HEAD"⟩] MPath.dot false =
      .ok [⟨(MPath.dot.join (MPath.ofString "lib")).parent, "HEAD",
        ⟨false, (MPath.ofString "lib").comps.drop
          ((MPath.ofString "lib").comps.length - 1)⟩⟩] :=
  c2_directory_target (fun _ => false) (fun _ => true)
    ⟨"element", "lib", "HEAD"⟩ false rfl (by decide) (Or.inr rfl)

theorem drop_length_sub_one_of_getLast {α : Type} {l : List α} {a : α}
    (h : l.getLast? = some a) : l.drop (l.length - 1) = [a] := by
  induction l with
  | nil => simp at h
  | cons x xs ih =>
    cases xs with
    | nil =>
      simp only [List.getLast?_singleton, Option.some.injEq] at h
      subst h
      rfl
    | cons y ys =>
      rw [List.getLast?_cons_cons] at h
      have hih := ih h
      simp only [List.length_cons, Nat.add_sub_cancel] at hih ⊢
      rw [List.drop_succ_cons]
      exact hih

/-- Claim C5 (counterexample): with base directory `a` and pattern `a`, the
resolved path `a/a` may well be an existing regular file, yet the derived
relative pattern is the empty/self path `.` — not the file name alone —
because `relative_to` is applied to the *unjoined* pattern. -/
theorem c5_counterexample :
    to_commands (fun _ => true) [⟨"element", "a", "s"⟩] ⟨false, ["a"]⟩ false =
      .ok [⟨⟨false, ["a"]⟩, "s", MPath.dot⟩] ∧
    (⟨false, ["a"]⟩ : MPath).join (MPath.ofString "a") = ⟨false, ["a", "a"]⟩ ∧
    MPath.dot ≠ (⟨false, ["a"]⟩ : MPath) := by
  exact ⟨rfl, rfl, by decide⟩

/-- Claim C5 (amended): with the default base directory `.`, for a rule
whose pattern resolves to an existing regular file (so the pattern has at
least one component, the last being the file name), the derived working
directory is the parent directory of the file and the relative pattern is the
file name alone.  The code never consults the file-kind: `isFile` is an
arbitrary file predicate constrained only by the stated hypotheses. -/
theorem c5_file_target (isFile ex : MPath → Bool) (r : ConfigSpecRule)
    (ignore : Bool) (name : String)
    (hfile : isFile (MPath.dot.join (MPath.ofString r.pattern)) = true)
    (hlast : (MPath.ofString r.pattern).comps.getLast? = some name)
    (hchk : ignore = true ∨ ex (MPath.ofString r.pattern).parent = true) :
    to_commands ex [r] MPath.dot ignore =
      .ok [⟨(MPath.dot.join (MPath.ofString r.pattern)).parent, r.selector,
        ⟨false, [name]⟩⟩] := by
  have hdrop : (MPath.ofString r.pattern).comps.drop
      ((MPath.ofString r.pattern).comps.length - 1) = [name] :=
    drop_length_sub_one_of_getLast hlast
  unfold to_commands
  rw [deriveRule_dot]
  have hcond : (ignore || ex (MPath.ofString r.pattern).parent) = true := by
    rcases hchk with h | h <;> simp [h]
  rw [if_pos hcond, MPath.dot_join, ← hdrop]
  rfl

/-- Claim C5 (amended) witness: pattern `a/f.txt`, the file existing. -/
theorem c5_file_target_witness :
    to_commands (fun _ => true) [⟨"element", "a/f.txt", "HEAD"⟩] MPath.dot
        false =
      .ok [⟨(MPath.dot.join (MPath.ofString "a/f.txt")).parent, "HEAD",
        ⟨false, ["f.txt"]⟩⟩] :=
  c5_file_target (fun _ => true) (fun _ => true)
    ⟨"element", "a/f.txt", "HEAD"⟩ false "f.txt" rfl rfl (Or.inr rfl)

theorem MPath.parent_absolute (p : MPath) :
    p.parent.absolute = p.absolute := by
  unfold MPath.parent
  split <;> rfl

theorem MPath.parent_of_ne_nil {a : Bool} {l : List String} (h : l ≠ []) :
    MPath.parent ⟨a, l⟩ = ⟨a, l.dropLast⟩ := by
  unfold MPath.parent
  rw [if_neg (by simpa using h)]

theorem MPath.relative_to_eq_none {p q : MPath}
    (h : ¬(p.absolute = q.absolute ∧ q.comps <+: p.comps)) :
    p.relative_to q = none := by
  unfold MPath.relative_to
  rw [if_neg h]

theorem eq_of_cons_dropLast_isPrefix {α : Type} {c : α} {l : List α} :
    (c :: l.dropLast) <+: l → ∀ x ∈ l, x = c := by
  induction l with
  | nil => intro _ x hx; exact absurd hx (List.not_mem_nil x)
  | cons a t ih =>
    intro h x hx
    rcases h with ⟨s, hs⟩
    cases t with
    | nil =>
      simp only [List.dropLast_single, List.cons_append, List.nil_append]
        at hs
      have hca : c = a := (List.cons.inj hs).1
      rcases List.mem_singleton.mp hx with rfl
      exact hca.symm
    | cons b u =>
      simp only [List.dropLast_cons₂, List.cons_append] at hs
      have hca : c = a := (List.cons.inj hs).1
      have h2 := (List.cons.inj hs).2
      subst hca
      rcases List.mem_cons.mp hx with rfl | hx'
      · rfl
      · exact ih ⟨s, by simpa [List.cons_append] using h2⟩ x hx'

/-- Claim C10 (counterexample): not every relative pattern with a non-`.`
base directory makes the deriver raise: for base `b` and pattern `.` the
joined path's parent is `.` again and `relative_to` succeeds, so derivation
returns a command (similarly for base `a` with pattern `a`). -/
theorem c10_counterexample :
    to_commands (fun _ => true) [⟨"element", ".", "HEAD"⟩] ⟨false, ["b"]⟩
        false = .ok [⟨MPath.dot, "HEAD", MPath.dot⟩] ∧
    (MPath.ofString ".").absolute = false ∧
    (⟨false, ["b"]⟩ : MPath) ≠ MPath.dot := by
  exact ⟨rfl, rfl, by decide⟩

/-- Claim C10 (amended): for a base directory other than `.` and a rule
with a relative pattern, once the existence check passes the deriver raises
an uncaught `ValueError` (not a `MissingDirectory` error) — except in the
degenerate cases where the parent of the base-joined pattern happens to be a
prefix of the pattern again, namely when the base is relative with a single
component and every component of the pattern equals it (this includes the
component-less pattern `.`). -/
theorem c10_value_error (ex : MPath → Bool) (root : MPath)
    (r : ConfigSpecRule) (ignore : Bool)
    (hrel : (MPath.ofString r.pattern).absolute = false)
    (hchk : ignore = true ∨
      ex ((root.join (MPath.ofString r.pattern)).parent) = true)
    (hroot : root.absolute = true ∨ 2 ≤ root.comps.length ∨
      (∃ c, root.comps = [c] ∧
        ∃ x ∈ (MPath.ofString r.pattern).comps, x ≠ c)) :
    to_commands ex [r] root ignore =
      .error (.valueError (MPath.ofString r.pattern)
        ((root.join (MPath.ofString r.pattern)).parent)) := by
  have hjoin : root.join (MPath.ofString r.pattern) =
      ⟨root.absolute, root.comps ++ (MPath.ofString r.pattern).comps⟩ := by
    unfold MPath.join
    rw [if_neg (by simp [hrel])]
  have hrt : (MPath.ofString r.pattern).relative_to
      ((root.join (MPath.ofString r.pattern)).parent) = none := by
    apply MPath.relative_to_eq_none
    rintro ⟨habs, hpre⟩
    rcases hroot with habs' | hlen | ⟨c, hc, x, hx, hxc⟩
    · rw [MPath.parent_absolute, hjoin, hrel] at habs
      exact Bool.false_ne_true (habs.trans habs')
    · have hne : root.comps ++ (MPath.ofString r.pattern).comps ≠ [] := by
        intro hnil
        rcases List.append_eq_nil.mp hnil with ⟨h1, _⟩
        rw [h1] at hlen
        exact absurd hlen (by decide)
      rw [hjoin, MPath.parent_of_ne_nil hne] at hpre
      have hle := hpre.length_le
      rw [List.length_dropLast, List.length_append] at hle
      have hp1 : 1 ≤ (MPath.ofString r.pattern).comps.length + 1 := by omega
      omega
    · have hpc : (MPath.ofString r.pattern).comps ≠ [] := by
        intro hnil
        rw [hnil] at hx
        exact absurd hx (List.not_mem_nil x)
      have hne : root.comps ++ (MPath.ofString r.pattern).comps ≠ [] := by
        simp [hc]
      rw [hjoin, MPath.parent_of_ne_nil hne, hc] at hpre
      rcases hpc' : (MPath.ofString r.pattern).comps with _ | ⟨y, ys⟩
      · exact hpc hpc'
      · rw [hpc'] at hpre
        simp only [List.cons_append, List.nil_append,
          List.dropLast_cons₂] at hpre
        have hall := eq_of_cons_dropLast_isPrefix hpre
        rw [hpc'] at hx
        exact hxc (hall x hx)
  unfold to_commands
  unfold deriveRule
  simp only
  rw [hrt]
  have hcond : (ignore ||
      ex ((root.join (MPath.ofString r.pattern)).parent)) = true := by
    rcases hchk with h | h <;> simp [h]
  rw [if_pos hcond]

/-- Claim C10 (amended) witness: base `a/b`, pattern `x`. -/
theorem c10_value_error_witness :
    to_commands (fun _ => true) [⟨"element", "x", "HEAD"⟩]
        ⟨false, ["a", "b"]⟩ true =
      .error (.valueError (MPath.ofString "x")
        (((⟨false, ["a", "b"]⟩ : MPath).join (MPath.ofString "x")).parent)) :=
  c10_value_error (fun _ => true) ⟨false, ["a", "b"]⟩
    ⟨"element", "x", "HEAD"⟩ true rfl (Or.inl rfl)
    (Or.inr (Or.inl (by decide)))

/-- Claim C6 (counterexample): a failing checkout in apply mode does *not*
end the process with exit code 3: `__main__` catches the
`CalledProcessError`, prints a message, and the script then ends normally
with exit status 0 (the code defines no exit code 3 at all). -/
theorem c6_counterexample :
    (applyCmds (fun _ => false)
        [⟨MPath.dot, "HEAD", ⟨false, ["a"]⟩⟩]).2 =
      some ⟨MPath.dot, "HEAD", ⟨false, ["a"]⟩⟩ ∧
    mainRun true ["element a HEAD"] (fun _ => true) MPath.dot false false true
        (fun _ => false) = .exitCode 0 ∧
    MainOutcome.exitCode 0 ≠ .exitCode 3 := by
  exact ⟨rfl, by decide, by decide⟩

/-- Claim C6 (amended): when the underlying checkout operation fails during
apply mode, the remaining queued commands are indeed not attempted (the
commands passed to the runner are exactly the successful prefix plus the
failing command), but the process then ends with exit status 0 — after the
`CalledProcessError` is caught and printed, the script simply falls off the
end; no distinguishable exit code 3 exists. -/
theorem c6_apply_failure :
    (∀ (run : PreparedCommand → Bool) (l : List PreparedCommand)
        (c : PreparedCommand), (applyCmds run l).2 = some c →
      ∃ l1 l2, l = l1 ++ c :: l2 ∧ (applyCmds run l).1 = l1 ++ [c] ∧
        (∀ d ∈ l1, run d = true) ∧ run c = false) ∧
    (∀ (lines : List String) (ex : MPath → Bool) (specParent : MPath)
        (ignore : Bool) (run : PreparedCommand → Bool)
        (cmds : List PreparedCommand),
      to_commands ex (sortRules (parse_iterable lines).1) specParent ignore =
        .ok cmds →
      mainRun true lines ex specParent ignore false true run =
        .exitCode 0) := by
  constructor
  · intro run l
    induction l with
    | nil => intro c h; exact absurd h (by simp [applyCmds])
    | cons a as ih =>
      intro c h
      unfold applyCmds at h
      by_cases hrun : run a = true
      · rw [if_pos hrun] at h
        rcases ih c h with ⟨l1, l2, heq, happ, hall, hfail⟩
        refine ⟨a :: l1, l2, by rw [heq]; simp, ?_, ?_, hfail⟩
        · show (applyCmds run (a :: as)).1 = a :: l1 ++ [c]
          unfold applyCmds
          rw [if_pos hrun]
          simp [happ]
        · intro d hd
          rcases List.mem_cons.mp hd with rfl | hd'
          · exact hrun
          · exact hall d hd'
      · rw [if_neg hrun] at h
        have hac : a = c := Option.some.inj h
        subst hac
        refine ⟨[], as, rfl, ?_, by intro d hd; exact absurd hd (by simp),
          by simpa using hrun⟩
        show (applyCmds run (a :: as)).1 = [] ++ [a]
        unfold applyCmds
        rw [if_neg hrun]
        rfl
  · intro lines ex specParent ignore run cmds hok
    unfold mainRun
    rw [hok]
    simp only [Bool.not_true, if_neg]
    cases (applyCmds run cmds).2 <;> rfl

/-- Claim C6 (amended) witness at a one-command list with a failing
runner. -/
theorem c6_apply_failure_witness :
    (∃ l1 l2, [(⟨MPath.dot, "HEAD", ⟨false, ["a"]⟩⟩ : PreparedCommand)] =
        l1 ++ (⟨MPath.dot, "HEAD", ⟨false, ["a"]⟩⟩ : PreparedCommand) :: l2 ∧
      (applyCmds (fun _ => false)
          [(⟨MPath.dot, "HEAD", ⟨false, ["a"]⟩⟩ : PreparedCommand)]).1 =
        l1 ++ [⟨MPath.dot, "HEAD", ⟨false, ["a"]⟩⟩] ∧
      (∀ d ∈ l1, (fun (_ : PreparedCommand) => false) d = true) ∧
      (fun (_ : PreparedCommand) => false)
        (⟨MPath.dot, "HEAD", ⟨false, ["a"]⟩⟩ : PreparedCommand) = false) ∧
    mainRun true ["element a HEAD"] (fun _ => true) MPath.dot false false
      true (fun _ => false) = .exitCode 0 :=
  ⟨c6_apply_failure.1 (fun _ => false)
      [⟨MPath.dot, "HEAD", ⟨false, ["a"]⟩⟩]
      ⟨MPath.dot, "HEAD", ⟨false, ["a"]⟩⟩ rfl,
   c6_apply_failure.2 ["element a HEAD"] (fun _ => true) MPath.dot false
      (fun _ => false) [⟨MPath.dot, "HEAD", ⟨false, ["a"]⟩⟩] rfl⟩

end GitConfigspec
